import Mathlib

/-!
Verification of the core logic of the gulf expiry bot (`app.py`).

The Python source is shallowly embedded: dictionaries become association
lists (preserving insertion order, as Python dicts do), dates become
year/month/day records mapped to a day ordinal, and the impure inputs
(today's date, timestamps) become explicit parameters.  `load_store`'s
value-level normalisation is embedded over a model of parsed-JSON Python
values, with exceptions modelled by `Except`.
-/

namespace GulfExpiry

/-! ### Python string helpers (`str.strip`, `str.lower`) -/

/-- Characters stripped by Python's `str.strip()` (the ASCII whitespace set). -/
def isPySpace (c : Char) : Bool :=
  c == ' ' || c == '\t' || c == '\n' || c == '\r' || c == '\x0b' || c == '\x0c'

/-- Strip whitespace from both ends of a character list. -/
def stripList (l : List Char) : List Char :=
  ((l.dropWhile isPySpace).reverse.dropWhile isPySpace).reverse

/-- Python `s.strip()`. -/
def pyStrip (s : String) : String := ⟨stripList s.data⟩

/-- Python `s.lower()` (ASCII view). -/
def pyLower (s : String) : String := ⟨s.data.map Char.toLower⟩

theorem dropWhile_dropWhile (p : Char → Bool) (l : List Char) :
    (l.dropWhile p).dropWhile p = l.dropWhile p := by
  induction l with
  | nil => rfl
  | cons a l ih =>
    by_cases h : p a
    · simp [List.dropWhile_cons, h, ih]
    · simp [List.dropWhile_cons, h]

theorem head?_dropWhile (p : Char → Bool) (l : List Char) {a : Char}
    (h : (l.dropWhile p).head? = some a) : p a = false := by
  induction l with
  | nil => simp at h
  | cons b l ih =>
    by_cases hb : p b
    · rw [List.dropWhile_cons_of_pos hb] at h
      exact ih h
    · rw [List.dropWhile_cons_of_neg hb] at h
      simp at h
      subst h
      simpa using hb

theorem dropWhile_eq_self_of_head? (p : Char → Bool) (l : List Char)
    (h : ∀ a, l.head? = some a → p a = false) : l.dropWhile p = l := by
  cases l with
  | nil => rfl
  | cons a l =>
    have := h a rfl
    simp [List.dropWhile_cons, this]

theorem getLast?_dropWhile (p : Char → Bool) (l : List Char)
    (h : l.dropWhile p ≠ []) : (l.dropWhile p).getLast? = l.getLast? := by
  induction l with
  | nil => simp at h
  | cons a l ih =>
    by_cases ha : p a
    · rw [List.dropWhile_cons_of_pos ha] at h ⊢
      cases l with
      | nil => simp at h
      | cons b t => rw [ih h, List.getLast?_cons_cons]
    · rw [List.dropWhile_cons_of_neg ha]

theorem stripList_idem (l : List Char) : stripList (stripList l) = stripList l := by
  have hL : (stripList l).dropWhile isPySpace = stripList l := by
    apply dropWhile_eq_self_of_head?
    intro a ha
    unfold stripList at ha
    rw [List.head?_reverse] at ha
    by_cases hnil : (l.dropWhile isPySpace).reverse.dropWhile isPySpace = []
    · rw [hnil] at ha; simp at ha
    · rw [getLast?_dropWhile isPySpace _ hnil, List.getLast?_reverse] at ha
      exact head?_dropWhile isPySpace l ha
  have hR : (stripList l).reverse.dropWhile isPySpace = (stripList l).reverse := by
    have e1 : (stripList l).reverse = (l.dropWhile isPySpace).reverse.dropWhile isPySpace := by
      simp [stripList]
    rw [e1, dropWhile_dropWhile]
  show (((stripList l).dropWhile isPySpace).reverse.dropWhile isPySpace).reverse = stripList l
  rw [hL, hR, List.reverse_reverse]

theorem pyStrip_idem (s : String) : pyStrip (pyStrip s) = pyStrip s := by
  unfold pyStrip
  exact congrArg String.mk (stripList_idem s.data)

/-! ### Dates (`parse_date`, `days_until`) -/

/-- Gregorian leap-year rule. -/
def isLeap (y : Nat) : Bool := (y % 4 == 0 && y % 100 != 0) || (y % 400 == 0)

/-- Length of a month. -/
def daysInMonth (y m : Nat) : Nat :=
  if m = 2 then (if isLeap y then 29 else 28)
  else if m = 4 ∨ m = 6 ∨ m = 9 ∨ m = 11 then 30
  else 31

/-- A calendar date, as produced by parsing `YYYY-MM-DD`. -/
structure Ymd where
  year : Nat
  month : Nat
  day : Nat
deriving DecidableEq, Repr

/-- Day ordinal of a date (days since 0000-03-01, proleptic Gregorian);
differences of ordinals are exact day differences, as for Python `date`
subtraction. -/
def toOrdinal (d : Ymd) : Nat :=
  let y := if d.month ≤ 2 then d.year - 1 else d.year
  let era := y / 400
  let yoe := y % 400
  let mp := if d.month > 2 then d.month - 3 else d.month + 9
  let doy := (153 * mp + 2) / 5 + (d.day - 1)
  let doe := yoe * 365 + yoe / 4 - yoe / 100 + doy
  era * 146097 + doe

/-- Numeric value of a digit string. -/
def digitsVal (l : List Char) : Nat :=
  l.foldl (fun a c => a * 10 + (c.toNat - 48)) 0

/-- Split a character list on a separator character (as Python `str.split`). -/
def splitOnChar (c : Char) : List Char → List (List Char)
  | [] => [[]]
  | a :: rest =>
    match splitOnChar c rest with
    | [] => [[]]
    | h :: t => if a == c then [] :: h :: t else (a :: h) :: t

/-- The `%m` field of CPython `strptime`, regex `1[0-2]|0[1-9]|[1-9]`:
one or two digits, no space padding (the value range is checked after
conversion). -/
def validMonthPart : List Char → Bool
  | [c] => c.isDigit
  | [c1, c2] => c1.isDigit && c2.isDigit
  | _ => false

/-- The `%d` field of CPython `strptime`, regex
`3[0-1]|[1-2]\d|0[1-9]|[1-9]| [1-9]`: one or two digits, or a single digit
padded with one leading space (the value range is checked after
conversion). -/
def validDayPart : List Char → Bool
  | [c] => c.isDigit
  | [c1, c2] => (c1.isDigit && c2.isDigit) || (c1 == ' ' && c2.isDigit)
  | _ => false

/-- `parse_date`: convert a `YYYY-MM-DD` string (as accepted by
`datetime.strptime(dstr.strip(), "%Y-%m-%d")`) to a date, or `none` if
invalid: exactly 4 year digits (`%Y` is `\d\d\d\d`), 1-2 month digits, a
1-2 digit or space-padded day, and a valid Gregorian calendar date with
year at least 1 (the `date` constructor rejects year 0 and out-of-range
days). -/
def parseDate (dstr : String) : Option Ymd :=
  if dstr = "" then none
  else
    match splitOnChar '-' (stripList dstr.data) with
    | [ys, ms, ds] =>
      if ys.length = 4 && ys.all Char.isDigit
          && validMonthPart ms && validDayPart ds then
        let y := digitsVal ys
        let m := digitsVal ms
        let d := digitsVal (ds.dropWhile (fun c => c == ' '))
        if 1 ≤ y ∧ 1 ≤ m ∧ m ≤ 12 ∧ 1 ≤ d ∧ d ≤ daysInMonth y m then
          some ⟨y, m, d⟩
        else none
      else none
    | _ => none

/-- `days_until` relative to an explicit current date (the Python code reads
`date.today()`; the spec requires the current date to be injectable). -/
def daysUntil (today expiry : Ymd) : Int :=
  (toOrdinal expiry : Int) - (toOrdinal today : Int)

/-- Result record of `evaluate_doc`. -/
structure EvalResult where
  expiry : String
  daysLeft : Int
  status : String
  reminderDays : Int
deriving DecidableEq, Repr

/-- The status chain of `evaluate_doc`. -/
def statusOf (dleft : Int) : String :=
  if dleft < 0 then "EXPIRED"
  else if dleft ≤ 30 then "NEAR EXPIRY"
  else "OK"

/-- `evaluate_doc`: `{}` (here `none`) on an unparsable expiry, otherwise
expiry string, days left, status label and the reminder threshold. -/
def evaluateDoc (today : Ymd) (expiryStr : String) (reminderDays : Int) :
    Option EvalResult :=
  match parseDate expiryStr with
  | none => none
  | some e =>
    let dleft := daysUntil today e
    some ⟨expiryStr, dleft, statusOf dleft, reminderDays⟩

theorem statusOf_expired_iff (d : Int) : statusOf d = "EXPIRED" ↔ d < 0 := by
  unfold statusOf
  split_ifs with h0 h30
  · simp [h0]
  · constructor
    · intro h; exact absurd h (by decide)
    · intro h; exact absurd h h0
  · constructor
    · intro h; exact absurd h (by decide)
    · intro h; exact absurd h h0

theorem statusOf_near_iff (d : Int) : statusOf d = "NEAR EXPIRY" ↔ 0 ≤ d ∧ d ≤ 30 := by
  unfold statusOf
  split_ifs with h0 h30
  · constructor
    · intro h; exact absurd h (by decide)
    · intro h; exfalso; omega
  · constructor
    · intro _; omega
    · intro _; rfl
  · constructor
    · intro h; exact absurd h (by decide)
    · intro h; exfalso; omega

theorem statusOf_ok_iff (d : Int) : statusOf d = "OK" ↔ 30 < d := by
  unfold statusOf
  split_ifs with h0 h30
  · constructor
    · intro h; exact absurd h (by decide)
    · intro h; exfalso; omega
  · constructor
    · intro h; exact absurd h (by decide)
    · intro h; exfalso; omega
  · constructor
    · intro _; omega
    · intro _; rfl

-- sanity checks of the date arithmetic
example : daysUntil ⟨2024, 1, 1⟩ ⟨2024, 3, 1⟩ = 60 := by decide
example : daysUntil ⟨2023, 1, 1⟩ ⟨2023, 3, 1⟩ = 59 := by decide
example : daysUntil ⟨2024, 1, 1⟩ ⟨2025, 1, 1⟩ = 366 := by decide
example : daysUntil ⟨2024, 1, 1⟩ ⟨2023, 12, 31⟩ = -1 := by decide
example : parseDate " 2024-02-29 " = some ⟨2024, 2, 29⟩ := by decide
example : parseDate "2023-02-29" = none := by decide
example : parseDate "2024-1-5" = some ⟨2024, 1, 5⟩ := by decide
example : parseDate "" = none := by decide
example : parseDate "02024-01-01" = none := by decide
example : parseDate "500-01-01" = none := by decide
example : parseDate "0500-01-01" = some ⟨500, 1, 1⟩ := by decide
example : parseDate "2024-01- 5" = some ⟨2024, 1, 5⟩ := by decide
example : parseDate "2024- 1-05" = none := by decide
example : parseDate "2024-01- 0" = none := by decide
example : parseDate "0000-01-01" = none := by decide

/-- C1: for every expiry string that parses as a valid calendar date and
every current date, `evaluate_doc` returns days_left = expiry − today in
whole days, with status EXPIRED iff days_left < 0, NEAR EXPIRY iff
0 ≤ days_left ≤ 30, OK iff days_left > 30, independent of the reminder
threshold; an unparsable expiry yields the empty result. -/
theorem evaluateDoc_spec (today : Ymd) (s : String) (rem : Int) :
    (parseDate s = none → evaluateDoc today s rem = none) ∧
    (∀ e, parseDate s = some e →
      ∃ r, evaluateDoc today s rem = some r ∧
        r.daysLeft = daysUntil today e ∧
        (r.status = "EXPIRED" ↔ r.daysLeft < 0) ∧
        (r.status = "NEAR EXPIRY" ↔ 0 ≤ r.daysLeft ∧ r.daysLeft ≤ 30) ∧
        (r.status = "OK" ↔ 30 < r.daysLeft) ∧
        (∀ rem' : Int, ∃ r', evaluateDoc today s rem' = some r' ∧
          r'.status = r.status)) := by
  constructor
  · intro h
    simp [evaluateDoc, h]
  · intro e he
    refine ⟨⟨s, daysUntil today e, statusOf (daysUntil today e), rem⟩,
      by simp [evaluateDoc, he], rfl, statusOf_expired_iff _, statusOf_near_iff _,
      statusOf_ok_iff _, ?_⟩
    intro rem'
    exact ⟨⟨s, daysUntil today e, statusOf (daysUntil today e), rem'⟩,
      by simp [evaluateDoc, he], rfl⟩

/-- C1 witness: a concrete instantiation of `evaluateDoc_spec`. -/
theorem evaluateDoc_spec_witness :
    ∃ r, evaluateDoc ⟨2024, 1, 1⟩ "2024-01-15" 5 = some r ∧
      r.daysLeft = daysUntil ⟨2024, 1, 1⟩ ⟨2024, 1, 15⟩ ∧
      (r.status = "EXPIRED" ↔ r.daysLeft < 0) ∧
      (r.status = "NEAR EXPIRY" ↔ 0 ≤ r.daysLeft ∧ r.daysLeft ≤ 30) ∧
      (r.status = "OK" ↔ 30 < r.daysLeft) ∧
      (∀ rem' : Int, ∃ r', evaluateDoc ⟨2024, 1, 1⟩ "2024-01-15" rem' = some r' ∧
        r'.status = r.status) :=
  (evaluateDoc_spec ⟨2024, 1, 1⟩ "2024-01-15" 5).2 ⟨2024, 1, 15⟩ (by decide)

/-! ### Parsed-JSON Python values and `load_store` normalisation

`load_store` (lines 58-131 of `app.py`) works on the value returned by
`json.load`: `PyVal` models those values (JSON `null` loads as Python
`None`).  An exception raised during normalisation is modelled by
`Except.error ()`. -/

/-- A Python value as produced by `json.load`. -/
inductive PyVal where
  | pnone : PyVal
  | pbool : Bool → PyVal
  | pint : Int → PyVal
  | pstr : String → PyVal
  | plist : List PyVal → PyVal
  | pdict : List (String × PyVal) → PyVal

/-- Python `d.get(k)` (absent key yields `None`). -/
def pyGet : List (String × PyVal) → String → PyVal
  | [], _ => .pnone
  | (k, v) :: rest, key => if k = key then v else pyGet rest key

/-- Python `d.get(k, default)`. -/
def pyGetD : List (String × PyVal) → String → PyVal → PyVal
  | [], _, d => d
  | (k, v) :: rest, key, d => if k = key then v else pyGetD rest key d

/-- Python `d.items()`: raises unless the value is a mapping. -/
def pyItems : PyVal → Except Unit (List (String × PyVal))
  | .pdict kvs => .ok kvs
  | _ => .error ()

def isNone : PyVal → Bool
  | .pnone => true
  | _ => false

/-- `docs if isinstance(docs, dict) else {}`. -/
def dictOrEmpty : PyVal → PyVal
  | .pdict kvs => .pdict kvs
  | _ => .pdict []

/-- `history if isinstance(history, list) else []`. -/
def listOrEmpty : PyVal → PyVal
  | .plist xs => .plist xs
  | _ => .plist []

/-- The docs-inference fallback: every field whose value is a mapping
containing an `expiry` key is treated as a document. -/
def inferDocs (kvs : List (String × PyVal)) : List (String × PyVal) :=
  kvs.filter fun kv =>
    match kv.2 with
    | .pdict inner => inner.any fun e => decide (e.1 = "expiry")
    | _ => false

/-- The `docs` value of a record, inferred from the record's own fields when
absent or null (`if docs is None: ...`). -/
def docsOrInferred (kvs : List (String × PyVal)) : PyVal :=
  match pyGet kvs "docs" with
  | .pnone => .pdict (inferDocs kvs)
  | x => x

/-- Normalisation of one profile entry (lines 88-99). -/
def normProfileEntry (pdata : List (String × PyVal)) : PyVal :=
  .pdict [("docs", dictOrEmpty (docsOrInferred pdata)),
    ("history", listOrEmpty (pyGetD pdata "history" (.plist [])))]

/-- Normalisation of the profiles mapping (lines 84-99); non-mapping
entries are dropped. -/
def normProfiles (profiles : List (String × PyVal)) : List (String × PyVal) :=
  profiles.filterMap fun pv =>
    match pv.2 with
    | .pdict kvs => some (pv.1, normProfileEntry kvs)
    | _ => none

/-- Normalisation of one employee record (lines 110-128).  `.strip()` on a
non-string `name`/`role` field raises. -/
def normEmployee (emp : List (String × PyVal)) : Except Unit PyVal :=
  match pyGetD emp "name" (.pstr "") with
  | .pstr nameRaw =>
    match pyGetD emp "role" (.pstr "") with
    | .pstr roleRaw =>
      .ok (.pdict [("name", .pstr (pyStrip nameRaw)), ("role", .pstr (pyStrip roleRaw)),
        ("docs", dictOrEmpty (docsOrInferred emp)),
        ("history", listOrEmpty (pyGetD emp "history" (.plist [])))])
    | _ => .error ()
  | _ => .error ()

/-- The employee-cleaning loop (lines 108-128); non-mapping entries are
skipped. -/
def normEmployeesList : List PyVal → Except Unit (List PyVal)
  | [] => .ok []
  | emp :: rest =>
    match emp with
    | .pdict kvs =>
      match normEmployee kvs with
      | .error e => .error e
      | .ok r =>
        match normEmployeesList rest with
        | .error e => .error e
        | .ok rs => .ok (r :: rs)
    | _ => normEmployeesList rest

/-- `employees` handling (lines 106-108): only the list shape is cleaned,
any other shape yields an empty employee list. -/
def normEmployees : PyVal → Except Unit (List PyVal)
  | .plist xs => normEmployeesList xs
  | _ => .ok []

/-- The companies loop (lines 102-129); non-mapping company entries are
dropped. -/
def normCompaniesList : List (String × PyVal) → Except Unit (List (String × PyVal))
  | [] => .ok []
  | (cname, cdata) :: rest =>
    match cdata with
    | .pdict kvs =>
      match normEmployees (pyGetD kvs "employees" (.plist [])) with
      | .error e => .error e
      | .ok emps =>
        match normCompaniesList rest with
        | .error e => .error e
        | .ok rs => .ok ((cname, PyVal.pdict [("employees", .plist emps)]) :: rs)
    | _ => normCompaniesList rest

/-- `if not isinstance(raw, dict): raw = {}` (line 67). -/
def rawDict : PyVal → List (String × PyVal)
  | .pdict kvs => kvs
  | _ => []

/-- The effective `profiles` value after lines 70-79 (legacy flat stores
become the profiles mapping). -/
def effProfilesVal (kvs : List (String × PyVal)) : PyVal :=
  if isNone (pyGet kvs "profiles") && isNone (pyGet kvs "companies") then .pdict kvs
  else if isNone (pyGet kvs "profiles") then .pdict [] else pyGet kvs "profiles"

/-- The effective `companies` value after lines 70-81. -/
def effCompaniesVal (kvs : List (String × PyVal)) : PyVal :=
  if isNone (pyGet kvs "companies") then .pdict [] else pyGet kvs "companies"

/-- Value-level normalisation of `load_store` (lines 67-131), applied to the
value parsed from the JSON file. -/
def normalize (raw : PyVal) : Except Unit PyVal :=
  match pyItems (effProfilesVal (rawDict raw)) with
  | .error e => .error e
  | .ok profiles =>
    match pyItems (effCompaniesVal (rawDict raw)) with
    | .error e => .error e
    | .ok companies =>
      match normCompaniesList companies with
      | .error e => .error e
      | .ok newCompanies =>
        .ok (.pdict [("profiles", .pdict (normProfiles profiles)),
          ("companies", .pdict newCompanies)])

-- a legacy flat store migrates into the canonical shape
example :
    normalize (.pdict [("Self", .pdict [("Visa", .pdict [("expiry", .pstr "2026-01-01")])])])
      = .ok (.pdict [
          ("profiles", .pdict [("Self", .pdict [
            ("docs", .pdict [("Visa", .pdict [("expiry", .pstr "2026-01-01")])]),
            ("history", .plist [])])]),
          ("companies", .pdict [])]) := rfl

/-- C2 (failing input): a company whose `employees` field is an id-keyed
mapping — the shape the repository's own level-3 version persists — loses
every employee on load, while the same record in a list survives. -/
theorem normalize_drops_mapping_employees :
    normalize (.pdict [("companies", .pdict [("Acme", .pdict [("employees",
        .pdict [("1", .pdict [("name", .pstr "Bob"), ("role", .pstr "Driver")])])])])])
      = .ok (.pdict [("profiles", .pdict []), ("companies",
          .pdict [("Acme", .pdict [("employees", .plist [])])])]) ∧
    normalize (.pdict [("companies", .pdict [("Acme", .pdict [("employees",
        .plist [.pdict [("name", .pstr "Bob"), ("role", .pstr "Driver")]])])])])
      = .ok (.pdict [("profiles", .pdict []), ("companies",
          .pdict [("Acme", .pdict [("employees",
            .plist [.pdict [("name", .pstr "Bob"), ("role", .pstr "Driver"),
              ("docs", .pdict []), ("history", .plist [])]])])])]) :=
  ⟨rfl, rfl⟩

/-- C3 (counterexample): a raw value whose `profiles` field is a list makes
the normalisation raise (`profiles.items()` has no meaning on a list), so it
does not "never raise" for every raw shape. -/
theorem normalize_raises_on_list_profiles :
    normalize (.pdict [("profiles", .plist [])]) = .error () := rfl

/-- No crash can come from an employee record whose `name`/`role` fields,
when present, are strings. -/
def goodEmployeeRec : PyVal → Bool
  | .pdict kvs =>
    (match pyGetD kvs "name" (.pstr "") with | .pstr _ => true | _ => false) &&
    (match pyGetD kvs "role" (.pstr "") with | .pstr _ => true | _ => false)
  | _ => true

/-- No crash can come from a company entry whose employee records are good. -/
def goodCompanyVal : PyVal → Bool
  | .pdict kvs =>
    (match pyGetD kvs "employees" (.plist []) with
     | .plist xs => xs.all goodEmployeeRec
     | _ => true)
  | _ => true

/-- The raw shapes on which the normalisation does not raise: `profiles`
and `companies`, when present, are null or mappings, and every employee
record's `name`/`role` fields, when present, are strings. -/
def wellFormedRaw : PyVal → Bool
  | .pdict kvs =>
    (match pyGet kvs "profiles" with
     | .pnone => true
     | .pdict _ => true
     | _ => false) &&
    (match pyGet kvs "companies" with
     | .pnone => true
     | .pdict cs => cs.all fun c => goodCompanyVal c.2
     | _ => false)
  | _ => true

theorem normEmployee_ok_of_good (kvs : List (String × PyVal))
    (h : goodEmployeeRec (.pdict kvs) = true) : ∃ v, normEmployee kvs = .ok v := by
  unfold goodEmployeeRec at h
  rw [Bool.and_eq_true] at h
  unfold normEmployee
  rcases hn : pyGetD kvs "name" (.pstr "") <;> rw [hn] at h <;> try simp at h
  rcases hr : pyGetD kvs "role" (.pstr "") <;> rw [hr] at h <;> try simp at h
  exact ⟨_, rfl⟩

theorem normEmployeesList_ok_of_good (xs : List PyVal)
    (h : xs.all goodEmployeeRec = true) : ∃ rs, normEmployeesList xs = .ok rs := by
  induction xs with
  | nil => exact ⟨[], rfl⟩
  | cons emp rest ih =>
    rw [List.all_cons, Bool.and_eq_true] at h
    obtain ⟨rs, hrs⟩ := ih h.2
    cases emp with
    | pdict kvs =>
      obtain ⟨v, hv⟩ := normEmployee_ok_of_good kvs h.1
      refine ⟨v :: rs, ?_⟩
      show (match normEmployee kvs with
        | Except.error e => Except.error e
        | Except.ok r =>
          match normEmployeesList rest with
          | Except.error e => Except.error e
          | Except.ok rs => Except.ok (r :: rs)) = Except.ok (v :: rs)
      rw [hv, hrs]
    | pnone => exact ⟨rs, hrs⟩
    | pbool b => exact ⟨rs, hrs⟩
    | pint n => exact ⟨rs, hrs⟩
    | pstr s => exact ⟨rs, hrs⟩
    | plist l => exact ⟨rs, hrs⟩

theorem normEmployees_ok_of_good (v : PyVal) (h : goodCompanyVal (.pdict [("employees", v)]) = true) :
    ∃ rs, normEmployees v = .ok rs := by
  unfold goodCompanyVal at h
  cases v with
  | plist xs =>
    simp only [pyGetD, if_pos rfl] at h
    exact normEmployeesList_ok_of_good xs h
  | pnone => exact ⟨[], rfl⟩
  | pbool b => exact ⟨[], rfl⟩
  | pint n => exact ⟨[], rfl⟩
  | pstr s => exact ⟨[], rfl⟩
  | pdict kvs => exact ⟨[], rfl⟩

theorem normCompaniesList_ok_of_good (cs : List (String × PyVal))
    (h : cs.all (fun c => goodCompanyVal c.2) = true) :
    ∃ rs, normCompaniesList cs = .ok rs := by
  induction cs with
  | nil => exact ⟨[], rfl⟩
  | cons c rest ih =>
    rw [List.all_cons, Bool.and_eq_true] at h
    obtain ⟨rs, hrs⟩ := ih h.2
    obtain ⟨cname, cdata⟩ := c
    cases cdata with
    | pdict kvs =>
      have hg : goodCompanyVal (.pdict [("employees", pyGetD kvs "employees" (.plist []))])
          = true := by
        have h1 := h.1
        unfold goodCompanyVal at h1 ⊢
        simp only [pyGetD, if_pos rfl]
        exact h1
      obtain ⟨emps, hemps⟩ := normEmployees_ok_of_good _ hg
      refine ⟨(cname, PyVal.pdict [("employees", .plist emps)]) :: rs, ?_⟩
      show (match normEmployees (pyGetD kvs "employees" (.plist [])) with
        | Except.error e => Except.error e
        | Except.ok emps =>
          match normCompaniesList rest with
          | Except.error e => Except.error e
          | Except.ok rs =>
            Except.ok ((cname, PyVal.pdict [("employees", PyVal.plist emps)]) :: rs)) =
        Except.ok ((cname, PyVal.pdict [("employees", PyVal.plist emps)]) :: rs)
      rw [hemps, hrs]
    | pnone => exact ⟨rs, hrs⟩
    | pbool b => exact ⟨rs, hrs⟩
    | pint n => exact ⟨rs, hrs⟩
    | pstr s => exact ⟨rs, hrs⟩
    | plist l => exact ⟨rs, hrs⟩

/-- C3 (amended): the normalisation never raises on raw values whose
`profiles`/`companies` fields, when present, are null or mappings and whose
employee records carry string (or absent) `name`/`role` fields; it always
produces a canonical store there. -/
theorem normalize_ok_of_wellFormed (raw : PyVal) (h : wellFormedRaw raw = true) :
    ∃ s, normalize raw = .ok s := by
  cases raw with
  | pdict kvs =>
    unfold wellFormedRaw at h
    rw [Bool.and_eq_true] at h
    obtain ⟨h1, h2⟩ := h
    have hP : ∃ ps, effProfilesVal kvs = .pdict ps := by
      rcases hp : pyGet kvs "profiles" with _ | b | n | s | l | ps <;>
        rw [hp] at h1
      · by_cases hc : isNone (pyGet kvs "companies") = true
        · refine ⟨kvs, ?_⟩
          unfold effProfilesVal
          rw [hp, hc]
          rfl
        · have hc' : isNone (pyGet kvs "companies") = false := by
            revert hc; cases isNone (pyGet kvs "companies") <;> simp
          refine ⟨[], ?_⟩
          unfold effProfilesVal
          rw [hp, hc']
          rfl
      · simp at h1
      · simp at h1
      · simp at h1
      · simp at h1
      · refine ⟨ps, ?_⟩
        unfold effProfilesVal
        rw [hp]
        rfl
    have hC : ∃ cs, effCompaniesVal kvs = .pdict cs ∧
        cs.all (fun c => goodCompanyVal c.2) = true := by
      rcases hcv : pyGet kvs "companies" with _ | b | n | s | l | cs <;>
        rw [hcv] at h2
      · refine ⟨[], ?_, rfl⟩
        unfold effCompaniesVal
        rw [hcv]
        rfl
      · simp at h2
      · simp at h2
      · simp at h2
      · simp at h2
      · refine ⟨cs, ?_, by simpa using h2⟩
        unfold effCompaniesVal
        rw [hcv]
        rfl
    obtain ⟨ps, hps⟩ := hP
    obtain ⟨cs, hcs, hgood⟩ := hC
    obtain ⟨rs, hrs⟩ := normCompaniesList_ok_of_good cs hgood
    have e1 : pyItems (effProfilesVal (rawDict (.pdict kvs))) = .ok ps := by
      show pyItems (effProfilesVal kvs) = _
      rw [hps]; rfl
    have e2 : pyItems (effCompaniesVal (rawDict (.pdict kvs))) = .ok cs := by
      show pyItems (effCompaniesVal kvs) = _
      rw [hcs]; rfl
    refine ⟨.pdict [("profiles", .pdict (normProfiles ps)), ("companies", .pdict rs)], ?_⟩
    unfold normalize
    rw [e1, e2]
    dsimp only
    rw [hrs]
  | pnone => exact ⟨_, rfl⟩
  | pbool b => exact ⟨_, rfl⟩
  | pint n => exact ⟨_, rfl⟩
  | pstr s => exact ⟨_, rfl⟩
  | plist l => exact ⟨_, rfl⟩

/-- C3 witness: `normalize_ok_of_wellFormed` at a concrete mixed store. -/
theorem normalize_ok_of_wellFormed_witness :
    ∃ s, normalize (.pdict [("profiles", .pdict [("Self", .pdict [])]),
      ("companies", .pdict [("Acme", .pdict [("employees",
        .plist [.pdict [("name", .pstr " Bob ")]])])])]) = .ok s :=
  normalize_ok_of_wellFormed _ rfl

/-! ### Idempotence of normalisation (C4) -/

theorem dictOrEmpty_shape (v : PyVal) : ∃ D, dictOrEmpty v = .pdict D := by
  cases v <;> exact ⟨_, rfl⟩

theorem listOrEmpty_shape (v : PyVal) : ∃ H, listOrEmpty v = .plist H := by
  cases v <;> exact ⟨_, rfl⟩

/-- The shape of every normalised profile entry. -/
def canonProfileVal (v : PyVal) : Prop :=
  ∃ D H, v = .pdict [("docs", .pdict D), ("history", .plist H)]

/-- The shape of every normalised employee record: fixed keys, with name and
role already stripped. -/
def canonEmpVal (v : PyVal) : Prop :=
  ∃ n r D H, v = .pdict [("name", .pstr n), ("role", .pstr r),
    ("docs", .pdict D), ("history", .plist H)] ∧ pyStrip n = n ∧ pyStrip r = r

/-- The shape of every normalised company entry. -/
def canonCompanyVal (v : PyVal) : Prop :=
  ∃ emps, v = .pdict [("employees", .plist emps)] ∧ ∀ e ∈ emps, canonEmpVal e

theorem normProfileEntry_canon (kvs : List (String × PyVal)) :
    canonProfileVal (normProfileEntry kvs) := by
  obtain ⟨D, hD⟩ := dictOrEmpty_shape (docsOrInferred kvs)
  obtain ⟨H, hH⟩ := listOrEmpty_shape (pyGetD kvs "history" (.plist []))
  exact ⟨D, H, by simp only [normProfileEntry, hD, hH]⟩

theorem normProfileEntry_idem (D H) :
    normProfileEntry [("docs", .pdict D), ("history", .plist H)]
      = .pdict [("docs", .pdict D), ("history", .plist H)] := rfl

theorem normProfiles_canon (ps : List (String × PyVal)) :
    ∀ x ∈ normProfiles ps, canonProfileVal x.2 := by
  intro x hx
  unfold normProfiles at hx
  rw [List.mem_filterMap] at hx
  obtain ⟨a, _, hfa⟩ := hx
  rcases ha : a.2 with _ | b | n | s | l | kvs <;> rw [ha] at hfa <;> try exact Option.noConfusion hfa
  injection hfa with hfa
  rw [← hfa]
  exact normProfileEntry_canon kvs

theorem normProfiles_idem (l : List (String × PyVal))
    (h : ∀ x ∈ l, canonProfileVal x.2) : normProfiles l = l := by
  induction l with
  | nil => rfl
  | cons x rest ih =>
    obtain ⟨p, v⟩ := x
    obtain ⟨D, H, hv⟩ := h (p, v) (List.mem_cons_self _ _)
    dsimp only at hv
    subst hv
    have ih' := ih (fun y hy => h y (List.mem_cons_of_mem _ hy))
    unfold normProfiles at ih' ⊢
    rw [List.filterMap_cons]
    dsimp only
    rw [normProfileEntry_idem, ih']

theorem normEmployee_canon (kvs : List (String × PyVal)) (v : PyVal)
    (h : normEmployee kvs = .ok v) : canonEmpVal v := by
  unfold normEmployee at h
  rcases hn : pyGetD kvs "name" (.pstr "") with _ | b | i | ns | l | d <;>
    rw [hn] at h <;> try exact Except.noConfusion h
  rcases hr : pyGetD kvs "role" (.pstr "") with _ | b2 | i2 | rs | l2 | d2 <;>
    rw [hr] at h <;> try exact Except.noConfusion h
  obtain ⟨D, hD⟩ := dictOrEmpty_shape (docsOrInferred kvs)
  obtain ⟨H, hH⟩ := listOrEmpty_shape (pyGetD kvs "history" (.plist []))
  rw [hD, hH] at h
  injection h with h
  exact ⟨pyStrip ns, pyStrip rs, D, H, h.symm, pyStrip_idem ns, pyStrip_idem rs⟩

theorem normEmployee_idem (n r : String) (D : List (String × PyVal)) (H : List PyVal)
    (hn : pyStrip n = n) (hr : pyStrip r = r) :
    normEmployee [("name", .pstr n), ("role", .pstr r), ("docs", .pdict D),
        ("history", .plist H)]
      = .ok (.pdict [("name", .pstr n), ("role", .pstr r), ("docs", .pdict D),
        ("history", .plist H)]) := by
  have base : normEmployee [("name", .pstr n), ("role", .pstr r), ("docs", .pdict D),
        ("history", .plist H)]
      = .ok (.pdict [("name", .pstr (pyStrip n)), ("role", .pstr (pyStrip r)),
        ("docs", .pdict D), ("history", .plist H)]) := rfl
  rw [base, hn, hr]

theorem normEmployeesList_cons_pdict (kvs : List (String × PyVal)) (rest : List PyVal) :
    normEmployeesList (.pdict kvs :: rest)
      = (match normEmployee kvs with
        | Except.error e => Except.error e
        | Except.ok r =>
          match normEmployeesList rest with
          | Except.error e => Except.error e
          | Except.ok rs => Except.ok (r :: rs)) := rfl

theorem normEmployeesList_canon (xs : List PyVal) (rs : List PyVal)
    (h : normEmployeesList xs = .ok rs) : ∀ v ∈ rs, canonEmpVal v := by
  induction xs generalizing rs with
  | nil =>
    injection h with h
    rw [← h]
    intro v hv
    exact absurd hv (List.not_mem_nil v)
  | cons emp rest ih =>
    cases emp with
    | pdict kvs =>
      rw [normEmployeesList_cons_pdict] at h
      rcases he : normEmployee kvs with e | v <;> rw [he] at h <;>
        try exact Except.noConfusion h
      rcases hrest : normEmployeesList rest with e | rs' <;> rw [hrest] at h <;>
        try exact Except.noConfusion h
      injection h with h
      rw [← h]
      intro w hw
      rcases List.mem_cons.mp hw with hw | hw
      · rw [hw]; exact normEmployee_canon kvs v he
      · exact ih rs' hrest w hw
    | pnone => exact ih rs h
    | pbool b => exact ih rs h
    | pint n => exact ih rs h
    | pstr s => exact ih rs h
    | plist l => exact ih rs h

theorem normEmployeesList_idem (emps : List PyVal)
    (h : ∀ v ∈ emps, canonEmpVal v) : normEmployeesList emps = .ok emps := by
  induction emps with
  | nil => rfl
  | cons v rest ih =>
    obtain ⟨n, r, D, H, hv, hn, hr⟩ := h v (List.mem_cons_self _ _)
    subst hv
    have ih' := ih (fun w hw => h w (List.mem_cons_of_mem _ hw))
    rw [normEmployeesList_cons_pdict, normEmployee_idem n r D H hn hr, ih']

theorem normEmployees_canon (v : PyVal) (emps : List PyVal)
    (h : normEmployees v = .ok emps) : ∀ e ∈ emps, canonEmpVal e := by
  cases v with
  | plist xs => exact normEmployeesList_canon xs emps h
  | pnone => injection h with h; rw [← h]; intro e he; exact absurd he (List.not_mem_nil e)
  | pbool b => injection h with h; rw [← h]; intro e he; exact absurd he (List.not_mem_nil e)
  | pint n => injection h with h; rw [← h]; intro e he; exact absurd he (List.not_mem_nil e)
  | pstr s => injection h with h; rw [← h]; intro e he; exact absurd he (List.not_mem_nil e)
  | pdict kvs => injection h with h; rw [← h]; intro e he; exact absurd he (List.not_mem_nil e)

theorem normCompaniesList_cons_pdict (cname : String) (kvs rest : List (String × PyVal)) :
    normCompaniesList ((cname, .pdict kvs) :: rest)
      = (match normEmployees (pyGetD kvs "employees" (.plist [])) with
        | Except.error e => Except.error e
        | Except.ok emps =>
          match normCompaniesList rest with
          | Except.error e => Except.error e
          | Except.ok rs =>
            Except.ok ((cname, PyVal.pdict [("employees", PyVal.plist emps)]) :: rs)) := rfl

theorem normCompaniesList_canon (cs rs : List (String × PyVal))
    (h : normCompaniesList cs = .ok rs) : ∀ x ∈ rs, canonCompanyVal x.2 := by
  induction cs generalizing rs with
  | nil =>
    injection h with h
    rw [← h]
    intro x hx
    exact absurd hx (List.not_mem_nil x)
  | cons c rest ih =>
    obtain ⟨cname, cdata⟩ := c
    cases cdata with
    | pdict kvs =>
      rw [normCompaniesList_cons_pdict] at h
      rcases he : normEmployees (pyGetD kvs "employees" (.plist [])) with e | emps <;>
        rw [he] at h <;> try exact Except.noConfusion h
      rcases hrest : normCompaniesList rest with e | rs' <;> rw [hrest] at h <;>
        try exact Except.noConfusion h
      injection h with h
      rw [← h]
      intro x hx
      rcases List.mem_cons.mp hx with hx | hx
      · rw [hx]
        exact ⟨emps, rfl, normEmployees_canon _ emps he⟩
      · exact ih rs' hrest x hx
    | pnone => exact ih rs h
    | pbool b => exact ih rs h
    | pint n => exact ih rs h
    | pstr s => exact ih rs h
    | plist l => exact ih rs h

theorem normCompaniesList_idem (cs : List (String × PyVal))
    (h : ∀ x ∈ cs, canonCompanyVal x.2) : normCompaniesList cs = .ok cs := by
  induction cs with
  | nil => rfl
  | cons c rest ih =>
    obtain ⟨cname, cdata⟩ := c
    obtain ⟨emps, hv, hemps⟩ := h (cname, cdata) (List.mem_cons_self _ _)
    dsimp only at hv
    subst hv
    have ih' := ih (fun y hy => h y (List.mem_cons_of_mem _ hy))
    rw [normCompaniesList_cons_pdict]
    have hE : normEmployees (pyGetD [("employees", PyVal.plist emps)] "employees" (.plist []))
        = .ok emps := by
      show normEmployeesList emps = .ok emps
      exact normEmployeesList_idem emps hemps
    rw [hE, ih']

/-- C4: normalisation is idempotent — whenever the load succeeds, running the
normalisation again on the canonical store it produced returns that store
unchanged. -/
theorem normalize_idem (raw s : PyVal) (h : normalize raw = .ok s) :
    normalize s = .ok s := by
  unfold normalize at h
  rcases e1 : pyItems (effProfilesVal (rawDict raw)) with u | ps <;> rw [e1] at h
  · exact Except.noConfusion h
  dsimp only at h
  rcases e2 : pyItems (effCompaniesVal (rawDict raw)) with u | cs <;> rw [e2] at h
  · exact Except.noConfusion h
  dsimp only at h
  rcases e3 : normCompaniesList cs with u | rs <;> rw [e3] at h
  · exact Except.noConfusion h
  injection h with h
  rw [← h]
  have f1 : pyItems (effProfilesVal (rawDict (.pdict
      [("profiles", .pdict (normProfiles ps)), ("companies", .pdict rs)])))
      = .ok (normProfiles ps) := rfl
  have f2 : pyItems (effCompaniesVal (rawDict (.pdict
      [("profiles", .pdict (normProfiles ps)), ("companies", .pdict rs)])))
      = .ok rs := rfl
  unfold normalize
  rw [f1, f2]
  dsimp only
  rw [normCompaniesList_idem rs (normCompaniesList_canon cs rs e3)]
  dsimp only
  rw [normProfiles_idem (normProfiles ps) (normProfiles_canon ps)]

/-- C4 witness: `normalize_idem` applied to the canonical store produced
from a legacy flat store. -/
theorem normalize_idem_witness :
    normalize (.pdict [
        ("profiles", .pdict [("Self", .pdict [
          ("docs", .pdict [("Visa", .pdict [("expiry", .pstr "2026-01-01")])]),
          ("history", .plist [])])]),
        ("companies", .pdict [])])
      = .ok (.pdict [
          ("profiles", .pdict [("Self", .pdict [
            ("docs", .pdict [("Visa", .pdict [("expiry", .pstr "2026-01-01")])]),
            ("history", .plist [])])]),
          ("companies", .pdict [])]) :=
  normalize_idem
    (.pdict [("Self", .pdict [("Visa", .pdict [("expiry", .pstr "2026-01-01")])])]) _ rfl

/-! ### Typed store, upserts, tables, analytics, reminder preview

Well-typed stores (the shape `save_store` persists): association lists stand
for Python dicts, preserving insertion order. -/

structure DocInfo where
  expiry : String
  reminderDays : Int
deriving DecidableEq, Repr

structure HistEntry where
  timestamp : String
  note : String
deriving DecidableEq, Repr

structure Profile where
  docs : List (String × DocInfo)
  history : List HistEntry
deriving DecidableEq, Repr

structure Employee where
  name : String
  role : String
  docs : List (String × DocInfo)
  history : List HistEntry
deriving DecidableEq, Repr

structure Company where
  employees : List Employee
deriving DecidableEq, Repr

structure Store where
  profiles : List (String × Profile)
  companies : List (String × Company)
deriving DecidableEq, Repr

/-- First-match association lookup (Python `d.get(k)`). -/
def lookup? {α : Type} : List (String × α) → String → Option α
  | [], _ => none
  | (k, v) :: rest, key => if k = key then some v else lookup? rest key

/-- Python `d[k] = v`: replace the first binding for `k`, else append. -/
def setKey {α : Type} : List (String × α) → String → α → List (String × α)
  | [], k, v => [(k, v)]
  | (k', v') :: rest, k, v =>
    if k' = k then (k, v) :: rest else (k', v') :: setKey rest k v

/-- After a leading digit, Python `int()` accepts further digits with
single underscores allowed only between digits (`4_2` is 42; `_42`, `42_`
and `4__2` are errors). -/
def intDigitsRest : List Char → Bool
  | [] => true
  | c :: rest =>
    if c = '_' then
      match rest with
      | c2 :: rest2 => c2.isDigit && intDigitsRest rest2
      | [] => false
    else c.isDigit && intDigitsRest rest

/-- A valid Python integer-literal body: a digit, then digits with single
interior underscores. -/
def intDigits : List Char → Bool
  | [] => false
  | c :: rest => c.isDigit && intDigitsRest rest

/-- Python `int(rstr)`: whitespace stripped, optional sign directly followed
by digits with single interior underscores. -/
def parseIntPy (s : String) : Option Int :=
  match stripList s.data with
  | [] => none
  | c :: rest =>
    if c = '-' then
      if intDigits rest then some (-(digitsVal (rest.filter Char.isDigit) : Int)) else none
    else if c = '+' then
      if intDigits rest then some (digitsVal (rest.filter Char.isDigit)) else none
    else if intDigits (c :: rest) then
      some (digitsVal ((c :: rest).filter Char.isDigit))
    else none

-- sanity checks against CPython `int()`
example : parseIntPy "4_2" = some 42 := by decide
example : parseIntPy "_42" = none := by decide
example : parseIntPy "42_" = none := by decide
example : parseIntPy "4__2" = none := by decide
example : parseIntPy " -5 " = some (-5) := by decide
example : parseIntPy "- 5" = none := by decide
example : parseIntPy " +7 " = some 7 := by decide

/-- The per-document loop of `save_profile`/`save_employee` (lines 222-244 /
401-423): an empty expiry field is skipped, an unparsable date is an error
and the field is dropped, an unparsable reminder value falls back to 30 with
an error; returns the built docs map and the error list. -/
def buildDocs : List (String × String × String) → List (String × DocInfo) × List String
  | [] => ([], [])
  | (docType, dstr, rstr) :: rest =>
    if dstr = "" then buildDocs rest
    else match parseDate dstr with
      | none => ((buildDocs rest).1,
          (docType ++ ": invalid date (use YYYY-MM-DD).") :: (buildDocs rest).2)
      | some _ =>
        if rstr = "" then
          ((docType, ⟨pyStrip dstr, 30⟩) :: (buildDocs rest).1, (buildDocs rest).2)
        else match parseIntPy rstr with
          | some n => ((docType, ⟨pyStrip dstr, n⟩) :: (buildDocs rest).1, (buildDocs rest).2)
          | none => ((docType, ⟨pyStrip dstr, 30⟩) :: (buildDocs rest).1,
              (docType ++ ": invalid reminder days, using 30 by default.")
                :: (buildDocs rest).2)

/-- The fixed `raw_inputs` mapping (lines 210-217 / 389-396). -/
def rawInputs (eIdE eIdR vE vR lE lR pE pR iE iR tE tR : String) :
    List (String × String × String) :=
  [("Emirates ID", eIdE, eIdR), ("Visa", vE, vR), ("Driving License", lE, lR),
   ("Passport", pE, pR), ("Car Insurance", iE, iR), ("Tenancy Contract", tE, tR)]

/-- The status message returned by the upserts. -/
def saveMsg (errors : List String) : String :=
  if errors = [] then "Saved successfully."
  else "Saved successfully. Some issues were found; see summary."

/-- `profile_name` defaulting (lines 202-204). -/
def profileKey (profileName : String) : String :=
  if pyStrip profileName = "" then "Self" else pyStrip profileName

/-- `company_name` defaulting (lines 373-375). -/
def companyKey (companyName : String) : String :=
  if pyStrip companyName = "" then "My Company" else pyStrip companyName

def mkProfileNote (ndocs : Nat) : String :=
  "Profile updated with " ++ toString ndocs ++ " documents."

def mkEmployeeNote (ndocs : Nat) : String :=
  "Employee updated with " ++ toString ndocs ++ " documents."

/-- `save_profile` (lines 186-278), restricted to its store mutation and
status message; `now` is the timestamp read inside the function.  The
profile's document map is rebuilt from the submission alone and the history
of any existing profile under the same key is carried forward with the new
note appended. -/
def saveProfile (store : Store) (profileName : String)
    (inputs : List (String × String × String)) (now : String) : Store × String :=
  ({ store with profiles := (setKey store.profiles (profileKey profileName)
      ⟨(buildDocs inputs).1,
       ((lookup? store.profiles (profileKey profileName)).getD ⟨[], []⟩).history
         ++ [⟨now, mkProfileNote (buildDocs inputs).1.length⟩]⟩) },
   saveMsg (buildDocs inputs).2)

/-- The employee find/update/append steps of `save_employee`
(lines 425-455): first case-insensitive match on the stripped name is
replaced in place carrying its history forward, otherwise a fresh record is
appended. -/
def upsertEmployees (employees : List Employee) (ename role : String)
    (docs : List (String × DocInfo)) (now : String) : List Employee :=
  match employees.findIdx? fun emp => pyLower (pyStrip emp.name) == pyLower ename with
  | some i => employees.set i
      ⟨ename, role, docs,
       (employees.getD i ⟨"", "", [], []⟩).history ++ [⟨now, mkEmployeeNote docs.length⟩]⟩
  | none => employees ++ [⟨ename, role, docs, [⟨now, mkEmployeeNote docs.length⟩]⟩]

/-- The `employees` list of a company in a store (`companies.get(name,
{"employees": []})["employees"]`). -/
def employeesOf (store : Store) (cname : String) : List Employee :=
  ((lookup? store.companies cname).getD ⟨[]⟩).employees

/-- `save_employee` (lines 355-471), restricted to its store mutation and
status message; an empty employee name aborts before any mutation. -/
def saveEmployee (store : Store) (companyName employeeName role : String)
    (inputs : List (String × String × String)) (now : String) : Store × String :=
  if pyStrip employeeName = "" then (store, "Employee name is required.")
  else
    ({ store with companies := (setKey store.companies (companyKey companyName)
        ⟨upsertEmployees (employeesOf store (companyKey companyName))
          (pyStrip employeeName) (pyStrip role) (buildDocs inputs).1 now⟩) },
     saveMsg (buildDocs inputs).2)

/-! #### Overview tables -/

/-- The per-entity soonest-expiry scan (strict `<`, first document wins
ties). -/
def bestDoc (today : Ymd) (docs : List (String × DocInfo)) :
    Option (String × EvalResult) :=
  docs.foldl (fun best d =>
    match evaluateDoc today d.2.expiry d.2.reminderDays with
    | none => best
    | some eva =>
      match best with
      | none => some (d.1, eva)
      | some (bd, bi) =>
        if eva.daysLeft < bi.daysLeft then some (d.1, eva) else some (bd, bi)) none

/-- A row of the profiles overview table
(`[Profile, Next document, Next expiry, Days left, Status]`); `daysLeft` is
`none` for the `"-"` cell of a `NO VALID DOCS` row. -/
structure ORow where
  profile : String
  doc : String
  expiry : String
  daysLeft : Option Int
  status : String
deriving DecidableEq, Repr

/-- The sort key `r[3] if isinstance(r[3], int) else 99999`. -/
def rowKey (d : Option Int) : Int := d.getD 99999

def profileRow (today : Ymd) (p : String × Profile) : ORow :=
  match bestDoc today p.2.docs with
  | none => ⟨p.1, "-", "-", none, "NO VALID DOCS"⟩
  | some (bd, bi) => ⟨p.1, bd, bi.expiry, some bi.daysLeft, bi.status⟩

def orowLe (a b : ORow) : Prop := rowKey a.daysLeft ≤ rowKey b.daysLeft

instance : DecidableRel orowLe := fun _ _ => Int.decLe _ _

instance : IsTotal ORow orowLe := ⟨fun _ _ => Int.le_total _ _⟩

instance : IsTrans ORow orowLe := ⟨fun _ _ _ => Int.le_trans⟩

/-- `build_profiles_overview_table` (lines 318-350): one row per profile,
then a stable sort by the integer key. -/
def buildProfilesOverviewTable (today : Ymd) (store : Store) : List ORow :=
  List.insertionSort orowLe (store.profiles.map (profileRow today))

/-- A row of the employees table
(`[Company, Name, Role, Next expiry doc, Next expiry date, Days left, Status]`). -/
structure ERow where
  company : String
  name : String
  role : String
  doc : String
  expiry : String
  daysLeft : Option Int
  status : String
deriving DecidableEq, Repr

def employeeRow (today : Ymd) (companyName : String) (emp : Employee) : ERow :=
  let nm := if emp.name = "" then "-" else emp.name
  let rl := if emp.role = "" then "-" else emp.role
  match bestDoc today emp.docs with
  | none => ⟨companyName, nm, rl, "-", "-", none, "NO VALID DOCS"⟩
  | some (bd, bi) => ⟨companyName, nm, rl, bd, bi.expiry, some bi.daysLeft, bi.status⟩

def erowLe (a b : ERow) : Prop := rowKey a.daysLeft ≤ rowKey b.daysLeft

instance : DecidableRel erowLe := fun _ _ => Int.decLe _ _

instance : IsTotal ERow erowLe := ⟨fun _ _ => Int.le_total _ _⟩

instance : IsTrans ERow erowLe := ⟨fun _ _ _ => Int.le_trans⟩

/-- `build_employee_table` (lines 522-556). -/
def buildEmployeeTable (today : Ymd) (companyName : String) (company : Company) :
    List ERow :=
  List.insertionSort erowLe (company.employees.map (employeeRow today companyName))

/-! #### Analytics -/

structure StatusCounts where
  expired : Nat
  nearExpiry : Nat
  okCount : Nat
deriving DecidableEq, Repr

/-- `status_counts[eva["status"]] += 1`. -/
def bumpCounts (c : StatusCounts) (status : String) : StatusCounts :=
  if status = "EXPIRED" then { c with expired := c.expired + 1 }
  else if status = "NEAR EXPIRY" then { c with nearExpiry := c.nearExpiry + 1 }
  else { c with okCount := c.okCount + 1 }

def countDocsList (today : Ymd) (docs : List (String × DocInfo))
    (c : StatusCounts) : StatusCounts :=
  docs.foldl (fun c d =>
    match evaluateDoc today d.2.expiry d.2.reminderDays with
    | none => c
    | some eva => bumpCounts c eva.status) c

/-- The status tallies of `build_analytics` (lines 575-625): every document
of every profile, then of every employee. -/
def analyticsCounts (today : Ymd) (store : Store) : StatusCounts :=
  let c := store.profiles.foldl (fun c p => countDocsList today p.2.docs c) ⟨0, 0, 0⟩
  store.companies.foldl
    (fun c comp => comp.2.employees.foldl (fun c emp => countDocsList today emp.docs c) c) c

/-- `risk_score = status_counts["EXPIRED"] * 2 + status_counts["NEAR EXPIRY"]`
(line 643). -/
def riskScore (today : Ymd) (store : Store) : Nat :=
  (analyticsCounts today store).expired * 2 + (analyticsCounts today store).nearExpiry

/-- The risk-level line of `build_analytics` (lines 645-652). -/
def riskLevelLine (score : Nat) : String :=
  if score = 0 then "Risk level: Very low."
  else if score ≤ 5 then "Risk level: Low."
  else if score ≤ 15 then "Risk level: Moderate."
  else "Risk level: High. Many documents are near expiry or expired."

/-- Specification-side count: documents over all profiles and employees whose
evaluated status is `s`. -/
def countStatusIn (today : Ymd) (docs : List (String × DocInfo)) (s : String) : Nat :=
  docs.countP fun d =>
    match evaluateDoc today d.2.expiry d.2.reminderDays with
    | none => false
    | some eva => decide (eva.status = s)

/-- All documents of the store, profiles first, in scan order. -/
def allDocs (store : Store) : List (String × DocInfo) :=
  (store.profiles.flatMap fun p => p.2.docs) ++
    (store.companies.flatMap fun c => c.2.employees.flatMap fun emp => emp.docs)

def statusCount (today : Ymd) (store : Store) (s : String) : Nat :=
  countStatusIn today (allDocs store) s

/-! #### Reminder preview -/

structure PRow where
  typ : String
  name : String
  company : String
  docType : String
  expiry : String
  remDays : Int
  dleft : Int
  flag : String
deriving DecidableEq, Repr

/-- `window_days` defaulting (line 674): 7 when absent or negative. -/
def effWindow (w : Option Int) : Int :=
  match w with
  | none => 7
  | some n => if n < 0 then 7 else n

/-- `as_of_date` resolution (lines 662-672): empty or unparsable falls back
to today. -/
def effAsOf (today : Ymd) (asOfStr : String) : Ymd :=
  if asOfStr = "" then today
  else match parseDate asOfStr with
    | none => today
    | some d => d

/-- One document of the preview scan (lines 696-749): skip unparsable
expiries, keep only `0 ≤ days_left ≤ window_days`, flag `YES` exactly when
`days_left == reminder_days`. -/
def previewDocRow (asOf : Ymd) (w : Int) (typ name company docType : String)
    (info : DocInfo) : Option PRow :=
  match parseDate info.expiry with
  | none => none
  | some e =>
    let dleft := daysUntil asOf e
    if dleft < 0 ∨ dleft > w then none
    else some ⟨typ, name, company, docType, info.expiry, info.reminderDays, dleft,
      if dleft = info.reminderDays then "YES" else "SOON"⟩

def prowLe (a b : PRow) : Prop := a.dleft ≤ b.dleft

instance : DecidableRel prowLe := fun _ _ => Int.decLe _ _

instance : IsTotal PRow prowLe := ⟨fun _ _ => Int.le_total _ _⟩

instance : IsTrans PRow prowLe := ⟨fun _ _ _ => Int.le_trans⟩

/-- `preview_reminders` (lines 657-759), restricted to its table rows: a pure
read-only scan of the store (it performs no writes), profiles first then
employees, sorted ascending by days from the chosen date. -/
def previewRows (today : Ymd) (asOfStr : String) (windowDays : Option Int)
    (store : Store) : List PRow :=
  let asOf := effAsOf today asOfStr
  let w := effWindow windowDays
  List.insertionSort prowLe
    ((store.profiles.flatMap fun p =>
        p.2.docs.filterMap fun d => previewDocRow asOf w "Profile" p.1 "-" d.1 d.2) ++
      (store.companies.flatMap fun c =>
        c.2.employees.flatMap fun emp =>
          emp.docs.filterMap fun d =>
            previewDocRow asOf w "Employee" (if emp.name = "" then "-" else emp.name)
              c.1 d.1 d.2))

/-! ### Theorems on the upserts and aggregators -/

theorem lookup?_setKey_self {α : Type} (l : List (String × α)) (k : String) (v : α) :
    lookup? (setKey l k v) k = some v := by
  induction l with
  | nil => simp [setKey, lookup?]
  | cons kv rest ih =>
    obtain ⟨k', v'⟩ := kv
    by_cases h : k' = k
    · simp [setKey, h, lookup?]
    · simp [setKey, h, lookup?, ih]

/-- C5: an employee upsert with an empty or whitespace-only employee name
returns the explicit failure message and leaves the store — every company's
employee list included — exactly as it was. -/
theorem saveEmployee_empty_name (store : Store) (companyName n role : String)
    (inputs : List (String × String × String)) (now : String)
    (h : pyStrip n = "") :
    saveEmployee store companyName n role inputs now
      = (store, "Employee name is required.") := by
  unfold saveEmployee
  rw [if_pos h]

/-- C5 witness: a store whose company "Acme" has two employees is untouched
by an upsert with a whitespace-only name. -/
theorem saveEmployee_empty_name_witness :
    saveEmployee
        ⟨[], [("Acme", ⟨[⟨"Ann", "PM", [], []⟩, ⟨"Bob", "Dev", [], []⟩]⟩)]⟩
        "Acme" "   " "Driver" [] "2024-01-01 10:00"
      = (⟨[], [("Acme", ⟨[⟨"Ann", "PM", [], []⟩, ⟨"Bob", "Dev", [], []⟩]⟩)]⟩,
         "Employee name is required.") :=
  saveEmployee_empty_name _ _ _ _ _ _ (by decide)

/-- C6 (amended): each overview table has exactly one soonest-expiry row per
entity (it is a permutation of the per-entity rows, hence of the same
length) and is sorted ascending by the key that reads `days_left` from a
valid row and `99999` from a `NO VALID DOCS` row — so `NO VALID DOCS` rows
come after every entity whose soonest `days_left` is below `99999`, but not
after entities with `days_left ≥ 99999`. -/
theorem overview_tables_sorted (today : Ymd) (store : Store) (cname : String)
    (company : Company) :
    (buildProfilesOverviewTable today store).Perm
        (store.profiles.map (profileRow today)) ∧
    List.Sorted orowLe (buildProfilesOverviewTable today store) ∧
    (buildProfilesOverviewTable today store).length = store.profiles.length ∧
    (buildEmployeeTable today cname company).Perm
        (company.employees.map (employeeRow today cname)) ∧
    List.Sorted erowLe (buildEmployeeTable today cname company) ∧
    (buildEmployeeTable today cname company).length = company.employees.length := by
  refine ⟨List.perm_insertionSort _ _, List.sorted_insertionSort _ _, ?_,
    List.perm_insertionSort _ _, List.sorted_insertionSort _ _, ?_⟩
  · rw [show buildProfilesOverviewTable today store
        = List.insertionSort orowLe (store.profiles.map (profileRow today)) from rfl,
      (List.perm_insertionSort _ _).length_eq, List.length_map]
  · rw [show buildEmployeeTable today cname company
        = List.insertionSort erowLe (company.employees.map (employeeRow today cname)) from rfl,
      (List.perm_insertionSort _ _).length_eq, List.length_map]

/-- C6 (counterexample): with the current date 2024-01-01, a profile whose
only document expires 2300-01-01 has `days_left = 100807 > 99999`, so the
profile with no valid documents sorts *before* it — `NO VALID DOCS` rows are
keyed `99999`, not `+infinity`. -/
theorem overview_no_valid_docs_not_last :
    buildProfilesOverviewTable ⟨2024, 1, 1⟩
        ⟨[("A", ⟨[("Visa", ⟨"2300-01-01", 30⟩)], []⟩), ("B", ⟨[], []⟩)], []⟩
      = [⟨"B", "-", "-", none, "NO VALID DOCS"⟩,
         ⟨"A", "Visa", "2300-01-01", some 100807, "OK"⟩] := by decide

theorem evaluateDoc_status_cases (t : Ymd) (s : String) (r : Int) (eva : EvalResult)
    (h : evaluateDoc t s r = some eva) :
    eva.status = "EXPIRED" ∨ eva.status = "NEAR EXPIRY" ∨ eva.status = "OK" := by
  unfold evaluateDoc at h
  rcases hp : parseDate s with _ | e <;> rw [hp] at h
  · exact Option.noConfusion h
  · injection h with h
    rw [← h]
    show statusOf (daysUntil t e) = _ ∨ statusOf (daysUntil t e) = _ ∨ statusOf (daysUntil t e) = _
    unfold statusOf
    split_ifs <;> simp

theorem countDocsList_eq (today : Ymd) (docs : List (String × DocInfo)) (c : StatusCounts) :
    countDocsList today docs c =
      ⟨c.expired + countStatusIn today docs "EXPIRED",
       c.nearExpiry + countStatusIn today docs "NEAR EXPIRY",
       c.okCount + countStatusIn today docs "OK"⟩ := by
  induction docs generalizing c with
  | nil => simp [countDocsList, countStatusIn]
  | cons d rest ih =>
    rcases hev : evaluateDoc today d.2.expiry d.2.reminderDays with _ | eva
    · have step : countDocsList today (d :: rest) c = countDocsList today rest c := by
        unfold countDocsList
        rw [List.foldl_cons, hev]
      have hc : ∀ s, countStatusIn today (d :: rest) s = countStatusIn today rest s := by
        intro s
        unfold countStatusIn
        rw [List.countP_cons]
        simp [hev]
      rw [step, ih, hc, hc, hc]
    · have step : countDocsList today (d :: rest) c
          = countDocsList today rest (bumpCounts c eva.status) := by
        unfold countDocsList
        rw [List.foldl_cons, hev]
      have hc : ∀ s : String, countStatusIn today (d :: rest) s
          = countStatusIn today rest s + (if eva.status = s then 1 else 0) := by
        intro s
        unfold countStatusIn
        rw [List.countP_cons]
        simp [hev]
      rw [step, ih]
      rcases evaluateDoc_status_cases _ _ _ _ hev with hst | hst | hst <;>
        simp [bumpCounts, hst, hc, StatusCounts.mk.injEq] <;> omega

theorem foldl_profiles_counts (today : Ymd) (ps : List (String × Profile))
    (c : StatusCounts) :
    ps.foldl (fun c p => countDocsList today p.2.docs c) c =
      ⟨c.expired + countStatusIn today (ps.flatMap fun p => p.2.docs) "EXPIRED",
       c.nearExpiry + countStatusIn today (ps.flatMap fun p => p.2.docs) "NEAR EXPIRY",
       c.okCount + countStatusIn today (ps.flatMap fun p => p.2.docs) "OK"⟩ := by
  induction ps generalizing c with
  | nil => simp [countStatusIn]
  | cons p rest ih =>
    rw [List.foldl_cons, countDocsList_eq, ih]
    simp [countStatusIn, List.countP_append, StatusCounts.mk.injEq]
    omega

theorem foldl_employees_counts (today : Ymd) (emps : List Employee) (c : StatusCounts) :
    emps.foldl (fun c emp => countDocsList today emp.docs c) c =
      ⟨c.expired + countStatusIn today (emps.flatMap fun emp => emp.docs) "EXPIRED",
       c.nearExpiry + countStatusIn today (emps.flatMap fun emp => emp.docs) "NEAR EXPIRY",
       c.okCount + countStatusIn today (emps.flatMap fun emp => emp.docs) "OK"⟩ := by
  induction emps generalizing c with
  | nil => simp [countStatusIn]
  | cons emp rest ih =>
    rw [List.foldl_cons, countDocsList_eq, ih]
    simp [countStatusIn, List.countP_append, StatusCounts.mk.injEq]
    omega

theorem foldl_companies_counts (today : Ymd) (cs : List (String × Company))
    (c : StatusCounts) :
    cs.foldl (fun c comp =>
        comp.2.employees.foldl (fun c emp => countDocsList today emp.docs c) c) c =
      ⟨c.expired + countStatusIn today
          (cs.flatMap fun comp => comp.2.employees.flatMap fun emp => emp.docs) "EXPIRED",
       c.nearExpiry + countStatusIn today
          (cs.flatMap fun comp => comp.2.employees.flatMap fun emp => emp.docs) "NEAR EXPIRY",
       c.okCount + countStatusIn today
          (cs.flatMap fun comp => comp.2.employees.flatMap fun emp => emp.docs) "OK"⟩ := by
  induction cs generalizing c with
  | nil => simp [countStatusIn]
  | cons comp rest ih =>
    rw [List.foldl_cons, foldl_employees_counts, ih]
    simp [countStatusIn, List.countP_append, StatusCounts.mk.injEq]
    omega

theorem analyticsCounts_eq (today : Ymd) (store : Store) :
    analyticsCounts today store =
      ⟨statusCount today store "EXPIRED", statusCount today store "NEAR EXPIRY",
       statusCount today store "OK"⟩ := by
  unfold analyticsCounts statusCount allDocs
  rw [foldl_profiles_counts, foldl_companies_counts]
  simp [countStatusIn, List.countP_append, StatusCounts.mk.injEq]

/-- C7: the analytics risk score is twice the number of EXPIRED documents
plus the number of NEAR EXPIRY documents across all profiles and all
employees, and the qualitative level has breakpoints 0 / 1-5 / 6-15 / >15. -/
theorem analytics_risk_spec (today : Ymd) (store : Store) :
    riskScore today store
      = 2 * statusCount today store "EXPIRED" + statusCount today store "NEAR EXPIRY" ∧
    ∀ n : Nat,
      (riskLevelLine n = "Risk level: Very low." ↔ n = 0) ∧
      (riskLevelLine n = "Risk level: Low." ↔ 1 ≤ n ∧ n ≤ 5) ∧
      (riskLevelLine n = "Risk level: Moderate." ↔ 6 ≤ n ∧ n ≤ 15) ∧
      (riskLevelLine n
          = "Risk level: High. Many documents are near expiry or expired." ↔ 15 < n) := by
  constructor
  · unfold riskScore
    rw [analyticsCounts_eq]
    dsimp
    omega
  · intro n
    unfold riskLevelLine
    refine ⟨?_, ?_, ?_, ?_⟩ <;> split_ifs with h1 h2 h3 <;>
      constructor <;> intro h <;>
        first
          | omega
          | exact absurd h (by decide)
          | rfl
          | exact absurd rfl (by omega)

theorem previewDocRow_props (asOf : Ymd) (w : Int) (t n c dt : String)
    (info : DocInfo) (r : PRow)
    (h : previewDocRow asOf w t n c dt info = some r) :
    0 ≤ r.dleft ∧ r.dleft ≤ w ∧ (r.flag = "YES" ↔ r.dleft = r.remDays) := by
  unfold previewDocRow at h
  rcases hp : parseDate info.expiry with _ | e <;> rw [hp] at h
  · exact Option.noConfusion h
  · dsimp only at h
    by_cases hw : daysUntil asOf e < 0 ∨ daysUntil asOf e > w
    · rw [if_pos hw] at h
      exact Option.noConfusion h
    · rw [if_neg hw] at h
      injection h with h
      rw [← h]
      push_neg at hw
      refine ⟨hw.1, hw.2, ?_⟩
      dsimp
      split_ifs with hf
      · simp [hf]
      · constructor
        · intro hfl; exact absurd hfl (by decide)
        · intro hd; exact absurd hd hf

theorem previewDocRow_of_inWindow (asOf : Ymd) (w : Int) (t n c dt : String)
    (info : DocInfo) (e : Ymd) (hp : parseDate info.expiry = some e)
    (h0 : 0 ≤ daysUntil asOf e) (hw : daysUntil asOf e ≤ w) :
    previewDocRow asOf w t n c dt info
      = some ⟨t, n, c, dt, info.expiry, info.reminderDays, daysUntil asOf e,
          if daysUntil asOf e = info.reminderDays then "YES" else "SOON"⟩ := by
  unfold previewDocRow
  rw [hp]
  dsimp only
  rw [if_neg (show ¬(daysUntil asOf e < 0 ∨ daysUntil asOf e > w) by
    intro hcon; rcases hcon with h | h <;> omega)]

/-- C8: for every store, as-of string and window (defaulting to 7 when
absent or negative): every preview row's days-from-as-of lies in
`[0, window]` and is flagged `YES` exactly when it equals the row's
reminder threshold; every parseable document whose days-from-as-of lies in
the window contributes its row (profiles and employees alike); and the rows
come out sorted ascending by days left.  The preview is a pure function of
the store — it performs no store mutation by construction. -/
theorem preview_reminders_spec (today : Ymd) (asOfStr : String) (w : Option Int)
    (store : Store) :
    (effWindow none = 7 ∧ (∀ n : Int, n < 0 → effWindow (some n) = 7) ∧
      (∀ n : Int, 0 ≤ n → effWindow (some n) = n)) ∧
    (∀ r ∈ previewRows today asOfStr w store,
      0 ≤ r.dleft ∧ r.dleft ≤ effWindow w ∧ (r.flag = "YES" ↔ r.dleft = r.remDays)) ∧
    List.Sorted prowLe (previewRows today asOfStr w store) ∧
    (∀ p ∈ store.profiles, ∀ d ∈ p.2.docs, ∀ e, parseDate d.2.expiry = some e →
      0 ≤ daysUntil (effAsOf today asOfStr) e →
      daysUntil (effAsOf today asOfStr) e ≤ effWindow w →
      (⟨"Profile", p.1, "-", d.1, d.2.expiry, d.2.reminderDays,
          daysUntil (effAsOf today asOfStr) e,
          if daysUntil (effAsOf today asOfStr) e = d.2.reminderDays then "YES"
          else "SOON"⟩ : PRow)
        ∈ previewRows today asOfStr w store) ∧
    (∀ c ∈ store.companies, ∀ emp ∈ c.2.employees, ∀ d ∈ emp.docs, ∀ e,
      parseDate d.2.expiry = some e →
      0 ≤ daysUntil (effAsOf today asOfStr) e →
      daysUntil (effAsOf today asOfStr) e ≤ effWindow w →
      (⟨"Employee", (if emp.name = "" then "-" else emp.name), c.1, d.1, d.2.expiry,
          d.2.reminderDays, daysUntil (effAsOf today asOfStr) e,
          if daysUntil (effAsOf today asOfStr) e = d.2.reminderDays then "YES"
          else "SOON"⟩ : PRow)
        ∈ previewRows today asOfStr w store) := by
  refine ⟨⟨rfl, ?_, ?_⟩, ?_, List.sorted_insertionSort _ _, ?_, ?_⟩
  · intro n hn
    simp [effWindow, hn]
  · intro n hn
    simp [effWindow]
    omega
  · intro r hr
    rw [show previewRows today asOfStr w store
        = List.insertionSort prowLe
            ((store.profiles.flatMap fun p =>
                p.2.docs.filterMap fun d =>
                  previewDocRow (effAsOf today asOfStr) (effWindow w) "Profile" p.1 "-"
                    d.1 d.2) ++
              (store.companies.flatMap fun c =>
                c.2.employees.flatMap fun emp =>
                  emp.docs.filterMap fun d =>
                    previewDocRow (effAsOf today asOfStr) (effWindow w) "Employee"
                      (if emp.name = "" then "-" else emp.name) c.1 d.1 d.2))
        from rfl, List.mem_insertionSort, List.mem_append] at hr
    rcases hr with hr | hr
    · rw [List.mem_flatMap] at hr
      obtain ⟨p, _, hr⟩ := hr
      rw [List.mem_filterMap] at hr
      obtain ⟨d, _, hd⟩ := hr
      exact previewDocRow_props _ _ _ _ _ _ _ _ hd
    · rw [List.mem_flatMap] at hr
      obtain ⟨c, _, hr⟩ := hr
      rw [List.mem_flatMap] at hr
      obtain ⟨emp, _, hr⟩ := hr
      rw [List.mem_filterMap] at hr
      obtain ⟨d, _, hd⟩ := hr
      exact previewDocRow_props _ _ _ _ _ _ _ _ hd
  · intro p hp d hd e he h0 hw
    rw [show previewRows today asOfStr w store
        = List.insertionSort prowLe
            ((store.profiles.flatMap fun p =>
                p.2.docs.filterMap fun d =>
                  previewDocRow (effAsOf today asOfStr) (effWindow w) "Profile" p.1 "-"
                    d.1 d.2) ++
              (store.companies.flatMap fun c =>
                c.2.employees.flatMap fun emp =>
                  emp.docs.filterMap fun d =>
                    previewDocRow (effAsOf today asOfStr) (effWindow w) "Employee"
                      (if emp.name = "" then "-" else emp.name) c.1 d.1 d.2))
        from rfl, List.mem_insertionSort, List.mem_append]
    left
    rw [List.mem_flatMap]
    refine ⟨p, hp, ?_⟩
    rw [List.mem_filterMap]
    exact ⟨d, hd, previewDocRow_of_inWindow _ _ _ _ _ _ _ e he h0 hw⟩
  · intro c hc emp hemp d hd e he h0 hw
    rw [show previewRows today asOfStr w store
        = List.insertionSort prowLe
            ((store.profiles.flatMap fun p =>
                p.2.docs.filterMap fun d =>
                  previewDocRow (effAsOf today asOfStr) (effWindow w) "Profile" p.1 "-"
                    d.1 d.2) ++
              (store.companies.flatMap fun c =>
                c.2.employees.flatMap fun emp =>
                  emp.docs.filterMap fun d =>
                    previewDocRow (effAsOf today asOfStr) (effWindow w) "Employee"
                      (if emp.name = "" then "-" else emp.name) c.1 d.1 d.2))
        from rfl, List.mem_insertionSort, List.mem_append]
    right
    rw [List.mem_flatMap]
    refine ⟨c, hc, ?_⟩
    rw [List.mem_flatMap]
    refine ⟨emp, hemp, ?_⟩
    rw [List.mem_filterMap]
    exact ⟨d, hd, previewDocRow_of_inWindow _ _ _ _ _ _ _ e he h0 hw⟩

/-- C8 witness: the spec's own example — as-of 2024-01-01, window 7, a
document expiring 2024-01-06 with threshold 5 is included and flagged
`YES`. -/
theorem preview_reminders_spec_witness :
    (⟨"Profile", "Self", "-", "Visa", "2024-01-06", 5, 5, "YES"⟩ : PRow)
      ∈ previewRows ⟨2023, 6, 1⟩ "2024-01-01" (some 7)
          ⟨[("Self", ⟨[("Visa", ⟨"2024-01-06", 5⟩)], []⟩)], []⟩ := by
  have h := (preview_reminders_spec ⟨2023, 6, 1⟩ "2024-01-01" (some 7)
    ⟨[("Self", ⟨[("Visa", ⟨"2024-01-06", 5⟩)], []⟩)], []⟩).2.2.2.1
      ("Self", ⟨[("Visa", ⟨"2024-01-06", 5⟩)], []⟩) (by decide)
      ("Visa", ⟨"2024-01-06", 5⟩) (by decide) ⟨2024, 1, 6⟩ (by decide)
      (by decide) (by decide)
  exact h

theorem employeesOf_saveEmployee (store : Store) (c n role : String)
    (inputs : List (String × String × String)) (now : String) (h : pyStrip n ≠ "") :
    employeesOf (saveEmployee store c n role inputs now).1 (companyKey c)
      = upsertEmployees (employeesOf store (companyKey c)) (pyStrip n) (pyStrip role)
          (buildDocs inputs).1 now := by
  unfold saveEmployee
  rw [if_neg h]
  unfold employeesOf
  dsimp only
  rw [lookup?_setKey_self]
  rfl

theorem upsertEmployees_found (es : List Employee) (ename role : String)
    (docs : List (String × DocInfo)) (now : String) (i : Nat)
    (hidx : es.findIdx? (fun emp => pyLower (pyStrip emp.name) == pyLower ename) = some i) :
    upsertEmployees es ename role docs now
      = es.set i ⟨ename, role, docs,
          (es.getD i ⟨"", "", [], []⟩).history ++ [⟨now, mkEmployeeNote docs.length⟩]⟩ := by
  unfold upsertEmployees
  rw [hidx]

theorem upsertEmployees_notFound (es : List Employee) (ename role : String)
    (docs : List (String × DocInfo)) (now : String)
    (hidx : es.findIdx? (fun emp => pyLower (pyStrip emp.name) == pyLower ename) = none) :
    upsertEmployees es ename role docs now
      = es ++ [⟨ename, role, docs, [⟨now, mkEmployeeNote docs.length⟩]⟩] := by
  unfold upsertEmployees
  rw [hidx]

/-- C9: two employee upserts into the same company whose stripped names agree
case-insensitively hit the same record: the second upsert updates in place
(same employee count, history carried forward with exactly one appended note
counting the written documents), while a first upsert with no
case-insensitive match appends a new employee with a fresh one-entry
history. -/
theorem saveEmployee_case_insensitive (store : Store)
    (c n₁ n₂ role₁ role₂ now₁ now₂ : String)
    (inputs₁ inputs₂ : List (String × String × String))
    (es₁ es₂ : List Employee)
    (h₁ : pyStrip n₁ ≠ "") (h₂ : pyStrip n₂ ≠ "")
    (hkey : pyLower (pyStrip n₁) = pyLower (pyStrip n₂))
    (he₁ : es₁ = employeesOf (saveEmployee store c n₁ role₁ inputs₁ now₁).1 (companyKey c))
    (he₂ : es₂ = employeesOf
        (saveEmployee (saveEmployee store c n₁ role₁ inputs₁ now₁).1
          c n₂ role₂ inputs₂ now₂).1 (companyKey c)) :
    (es₂.length = es₁.length ∧
      ∃ i, ∃ hi : i < es₁.length,
        es₂ = es₁.set i ⟨pyStrip n₂, pyStrip role₂, (buildDocs inputs₂).1,
          (es₁.get ⟨i, hi⟩).history
            ++ [⟨now₂, mkEmployeeNote (buildDocs inputs₂).1.length⟩]⟩) ∧
    ((∀ emp ∈ employeesOf store (companyKey c),
        pyLower (pyStrip emp.name) ≠ pyLower (pyStrip n₁)) →
      es₁ = employeesOf store (companyKey c) ++
        [⟨pyStrip n₁, pyStrip role₁, (buildDocs inputs₁).1,
          [⟨now₁, mkEmployeeNote (buildDocs inputs₁).1.length⟩]⟩]) := by
  have hPP : (fun emp : Employee => pyLower (pyStrip emp.name) == pyLower (pyStrip n₁))
      = (fun emp : Employee => pyLower (pyStrip emp.name) == pyLower (pyStrip n₂)) := by
    funext emp
    rw [hkey]
  have hPr : ∀ (role : String) (docs : List (String × DocInfo)) (hist : List HistEntry),
      (pyLower (pyStrip (Employee.mk (pyStrip n₁) role docs hist).name)
        == pyLower (pyStrip n₂)) = true := by
    intro role docs hist
    show (pyLower (pyStrip (pyStrip n₁)) == pyLower (pyStrip n₂)) = true
    rw [pyStrip_idem, hkey]
    exact beq_self_eq_true _
  constructor
  · rw [he₁, he₂, employeesOf_saveEmployee _ _ _ _ _ _ h₂,
      employeesOf_saveEmployee _ _ _ _ _ _ h₁]
    rcases hidx : (employeesOf store (companyKey c)).findIdx?
        (fun emp => pyLower (pyStrip emp.name) == pyLower (pyStrip n₂)) with _ | i
    · -- no pre-existing match: the first upsert appends at the end
      have hidx₁ : (employeesOf store (companyKey c)).findIdx?
          (fun emp => pyLower (pyStrip emp.name) == pyLower (pyStrip n₁)) = none := by
        rw [hPP]; exact hidx
      rw [upsertEmployees_notFound _ _ _ _ _ hidx₁]
      have hidx₂ : ((employeesOf store (companyKey c)) ++
          [(⟨pyStrip n₁, pyStrip role₁, (buildDocs inputs₁).1,
            [⟨now₁, mkEmployeeNote (buildDocs inputs₁).1.length⟩]⟩ : Employee)]).findIdx?
          (fun emp => pyLower (pyStrip emp.name) == pyLower (pyStrip n₂))
          = some (employeesOf store (companyKey c)).length := by
        rw [List.findIdx?_append, hidx]
        have hP1 := hPr (pyStrip role₁) (buildDocs inputs₁).1
          [⟨now₁, mkEmployeeNote (buildDocs inputs₁).1.length⟩]
        simp [List.findIdx?_cons, hP1]
      rw [upsertEmployees_found _ _ _ _ _ _ hidx₂]
      refine ⟨by simp, (employeesOf store (companyKey c)).length, by simp, ?_⟩
      have hget : ((employeesOf store (companyKey c)) ++
          [(⟨pyStrip n₁, pyStrip role₁, (buildDocs inputs₁).1,
            [⟨now₁, mkEmployeeNote (buildDocs inputs₁).1.length⟩]⟩ : Employee)]).getD
          (employeesOf store (companyKey c)).length (⟨"", "", [], []⟩ : Employee)
          = ⟨pyStrip n₁, pyStrip role₁, (buildDocs inputs₁).1,
            [⟨now₁, mkEmployeeNote (buildDocs inputs₁).1.length⟩]⟩ := by
        rw [List.getD_eq_getElem _ _ (by simp)]
        simp
      rw [hget, List.get_eq_getElem]
      simp
    · -- a match at index i: both upserts write index i
      have hidx₁ : (employeesOf store (companyKey c)).findIdx?
          (fun emp => pyLower (pyStrip emp.name) == pyLower (pyStrip n₁)) = some i := by
        rw [hPP]; exact hidx
      obtain ⟨hlt, hPi, hprev⟩ := List.findIdx?_eq_some_iff_getElem.mp hidx
      rw [upsertEmployees_found _ _ _ _ _ _ hidx₁]
      have hidx₂ : ((employeesOf store (companyKey c)).set i
          ⟨pyStrip n₁, pyStrip role₁, (buildDocs inputs₁).1,
            ((employeesOf store (companyKey c)).getD i ⟨"", "", [], []⟩).history
              ++ [⟨now₁, mkEmployeeNote (buildDocs inputs₁).1.length⟩]⟩).findIdx?
          (fun emp => pyLower (pyStrip emp.name) == pyLower (pyStrip n₂)) = some i := by
        apply List.findIdx?_eq_some_iff_getElem.mpr
        refine ⟨by simpa using hlt, ?_, ?_⟩
        · rw [List.getElem_set_self (by simpa using hlt)]
          exact hPr _ _ _
        · intro j hj
          rw [List.getElem_set_ne (show i ≠ j by omega)]
          exact hprev j hj
      rw [upsertEmployees_found _ _ _ _ _ _ hidx₂]
      refine ⟨by simp, i, by simpa using hlt, ?_⟩
      have hset : (((employeesOf store (companyKey c)).set i
          ⟨pyStrip n₁, pyStrip role₁, (buildDocs inputs₁).1,
            ((employeesOf store (companyKey c)).getD i ⟨"", "", [], []⟩).history
              ++ [⟨now₁, mkEmployeeNote (buildDocs inputs₁).1.length⟩]⟩).getD i
          (⟨"", "", [], []⟩ : Employee))
          = ⟨pyStrip n₁, pyStrip role₁, (buildDocs inputs₁).1,
            ((employeesOf store (companyKey c)).getD i ⟨"", "", [], []⟩).history
              ++ [⟨now₁, mkEmployeeNote (buildDocs inputs₁).1.length⟩]⟩ := by
        rw [List.getD_eq_getElem _ _ (by simpa using hlt)]
        exact List.getElem_set_self (by simpa using hlt)
      rw [hset, List.get_eq_getElem, List.getElem_set_self (by simpa using hlt)]
  · intro hnone
    rw [he₁, employeesOf_saveEmployee _ _ _ _ _ _ h₁]
    apply upsertEmployees_notFound
    rw [List.findIdx?_eq_none_iff]
    intro emp hemp
    exact beq_eq_false_iff_ne.mpr (hnone emp hemp)

/-- C9 witness: saving "john doe" then "John Doe" into an empty store leaves
one employee whose history has two entries. -/
theorem saveEmployee_case_insensitive_witness :
    ∃ es₂ : List Employee,
      es₂ = employeesOf
        (saveEmployee (saveEmployee ⟨[], []⟩ "Acme" "john doe" "Driver" [] "t1").1
          "Acme" "John Doe" "Lead" [] "t2").1 (companyKey "Acme") ∧
      es₂.length = 1 ∧
      es₂ = [⟨"John Doe", "Lead", [], [⟨"t1", mkEmployeeNote 0⟩, ⟨"t2", mkEmployeeNote 0⟩]⟩] := by
  have h := saveEmployee_case_insensitive ⟨[], []⟩ "Acme" "john doe" "John Doe"
    "Driver" "Lead" "t1" "t2" [] []
    (employeesOf (saveEmployee ⟨[], []⟩ "Acme" "john doe" "Driver" [] "t1").1
      (companyKey "Acme"))
    (employeesOf
      (saveEmployee (saveEmployee ⟨[], []⟩ "Acme" "john doe" "Driver" [] "t1").1
        "Acme" "John Doe" "Lead" [] "t2").1 (companyKey "Acme"))
    (by decide) (by decide) (by decide) rfl rfl
  obtain ⟨⟨hlen, _⟩, happend⟩ := h
  have hes₁ : employeesOf (saveEmployee ⟨[], []⟩ "Acme" "john doe" "Driver" [] "t1").1
      (companyKey "Acme")
      = [⟨pyStrip "john doe", pyStrip "Driver", (buildDocs []).1,
          [⟨"t1", mkEmployeeNote (buildDocs []).1.length⟩]⟩] := by
    have := happend (by intro emp hemp; exact absurd hemp (List.not_mem_nil emp))
    simpa using this
  refine ⟨_, rfl, ?_, ?_⟩
  · rw [hlen, hes₁]
    rfl
  · decide

/-- The docs map built by an upsert contains no entry for a document type all
of whose submitted expiry fields are empty or unparsable. -/
theorem buildDocs_lookup_none (inputs : List (String × String × String)) (dt : String)
    (h : ∀ ds rs, (dt, ds, rs) ∈ inputs → ds = "" ∨ parseDate ds = none) :
    lookup? (buildDocs inputs).1 dt = none := by
  induction inputs with
  | nil => rfl
  | cons x rest ih =>
    obtain ⟨dt', ds, rs⟩ := x
    have ih' := ih fun ds' rs' hm => h ds' rs' (List.mem_cons_of_mem _ hm)
    by_cases hds : ds = ""
    · show lookup? (buildDocs ((dt', ds, rs) :: rest)).1 dt = none
      unfold buildDocs
      rw [if_pos hds]
      exact ih'
    · rcases hpd : parseDate ds with _ | e
      · show lookup? (buildDocs ((dt', ds, rs) :: rest)).1 dt = none
        unfold buildDocs
        rw [if_neg hds, hpd]
        exact ih'
      · have hdt : dt' ≠ dt := by
          intro hEq
          subst hEq
          rcases h ds rs (List.mem_cons_self _ _) with h' | h'
          · exact hds h'
          · rw [hpd] at h'
            exact Option.noConfusion h'
        show lookup? (buildDocs ((dt', ds, rs) :: rest)).1 dt = none
        unfold buildDocs
        rw [if_neg hds, hpd]
        by_cases hrs : rs = ""
        · rw [if_pos hrs]
          dsimp only
          unfold lookup?
          rw [if_neg hdt]
          exact ih'
        · rw [if_neg hrs]
          rcases hint : parseIntPy rs with _ | v <;> dsimp only <;>
            unfold lookup? <;> rw [if_neg hdt] <;> exact ih'

/-- C10: an upsert replaces the entity's whole document map with the one
built from the current submission: the saved profile holds exactly
`buildDocs inputs` with only the history carried forward, a saved employee's
record holds exactly `buildDocs inputs`, and any document type submitted
only with empty or unparsable dates is absent from the built map — whatever
was stored before. -/
theorem upsert_replaces_docs (store : Store) (pn c en role now : String)
    (inputs : List (String × String × String)) :
    (lookup? (saveProfile store pn inputs now).1.profiles (profileKey pn)
      = some ⟨(buildDocs inputs).1,
          ((lookup? store.profiles (profileKey pn)).getD ⟨[], []⟩).history
            ++ [⟨now, mkProfileNote (buildDocs inputs).1.length⟩]⟩) ∧
    (∀ (inputs' : List (String × String × String)) (dt : String),
      (∀ ds rs, (dt, ds, rs) ∈ inputs' → ds = "" ∨ parseDate ds = none) →
      lookup? (buildDocs inputs').1 dt = none) ∧
    (pyStrip en ≠ "" →
      ∃ i, ∃ hi : i < (employeesOf (saveEmployee store c en role inputs now).1
          (companyKey c)).length,
        (employeesOf (saveEmployee store c en role inputs now).1 (companyKey c)).get ⟨i, hi⟩
          = ⟨pyStrip en, pyStrip role, (buildDocs inputs).1,
             (match (employeesOf store (companyKey c)).findIdx?
                 (fun emp => pyLower (pyStrip emp.name) == pyLower (pyStrip en)) with
               | some j => ((employeesOf store (companyKey c)).getD j ⟨"", "", [], []⟩).history
               | none => [])
               ++ [⟨now, mkEmployeeNote (buildDocs inputs).1.length⟩]⟩) := by
  refine ⟨?_, buildDocs_lookup_none, ?_⟩
  · unfold saveProfile
    dsimp only
    rw [lookup?_setKey_self]
  · intro hn
    rw [employeesOf_saveEmployee _ _ _ _ _ _ hn]
    rcases hidx : (employeesOf store (companyKey c)).findIdx?
        (fun emp => pyLower (pyStrip emp.name) == pyLower (pyStrip en)) with _ | i
    · rw [upsertEmployees_notFound _ _ _ _ _ hidx]
      refine ⟨(employeesOf store (companyKey c)).length, by simp, ?_⟩
      rw [List.get_eq_getElem]
      simp
      rw [hidx]
    · obtain ⟨hlt, -, -⟩ := List.findIdx?_eq_some_iff_getElem.mp hidx
      rw [upsertEmployees_found _ _ _ _ _ _ hidx]
      refine ⟨i, by simpa using hlt, ?_⟩
      rw [List.get_eq_getElem, List.getElem_set_self (by simpa using hlt), hidx]

/-- C10 witness: a profile that had a Passport document, re-saved with only a
Visa date, keeps no Passport entry; and the employee branch applies at a
concrete store. -/
theorem upsert_replaces_docs_witness :
    lookup? (saveProfile
        ⟨[("Self", ⟨[("Passport", ⟨"2026-05-05", 30⟩)], []⟩)], []⟩ "Self"
        [("Passport", "", "30"), ("Visa", "2026-01-01", "30")] "t").1.profiles
        (profileKey "Self")
      = some ⟨(buildDocs [("Passport", "", "30"), ("Visa", "2026-01-01", "30")]).1,
          [⟨"t", mkProfileNote
            (buildDocs [("Passport", "", "30"), ("Visa", "2026-01-01", "30")]).1.length⟩]⟩ ∧
    lookup? (buildDocs [("Passport", "", "30"), ("Visa", "2026-01-01", "30")]).1 "Passport"
      = none := by
  constructor
  · have h := (upsert_replaces_docs
      ⟨[("Self", ⟨[("Passport", ⟨"2026-05-05", 30⟩)], []⟩)], []⟩ "Self" "" "" "" "t"
      [("Passport", "", "30"), ("Visa", "2026-01-01", "30")]).1
    simpa using h
  · exact (upsert_replaces_docs ⟨[], []⟩ "" "" "" "" "t" []).2.1
      [("Passport", "", "30"), ("Visa", "2026-01-01", "30")] "Passport"
      (by
        intro ds rs hm
        simp only [List.mem_cons, List.not_mem_nil, or_false, Prod.mk.injEq] at hm
        rcases hm with ⟨h1, h2, h3⟩ | ⟨h1, h2, h3⟩
        · left; exact h2
        · exact absurd h1 (by decide))

end GulfExpiry
